import Mathlib

/-!
Verification of the ingredient-enrichment pipeline
(`enrichIngredientsWithDetails` and its helpers `retrieveSafetyContext`,
`fetchIngredientFromLLMWithRAG`, `processBatch`).

The JavaScript source is shallowly embedded: the external collaborators
(the `IngredientAI` cache collection, the vector safety search, the
HYPER CLOVA generation endpoint, and the environment credentials) are
modelled as explicit oracles in an `Env` record, and the asynchronous
pipeline becomes a pure function from the environment and the input name
list to either a thrown error (`Except.error`) or the produced output
list together with the updated cache collection.

JavaScript conventions are modelled explicitly:
  * a possibly-absent string field is `Option String`, and the idiom
    `x || d` (which also replaces the empty string) is `jsOr`;
  * a possibly-absent array field is `Option (List α)` with `getD []`;
  * a JS `Map` is a function `String → Option _` updated by `mapSet`;
  * similarity scores are exact rationals, so the comparisons with the
    0.8 / 0.85 thresholds are the literal comparisons of the source.
-/

namespace Enrich

/-- JS `x || d` on strings: `undefined`/`null`/`""` all fall through to `d`. -/
def jsOr (o : Option String) (d : String) : String :=
  match o with
  | none => d
  | some s => if s.isEmpty then d else s

/-- Truthiness of an optional environment variable (`!apiKey`). -/
def jsTruthy (o : Option String) : Bool :=
  match o with
  | none => false
  | some s => !s.isEmpty

/-- A document of the `IngredientAI` collection, also the shape returned
to the caller (the step-4 projection keeps exactly these six fields). -/
structure IngredientDoc where
  name : String
  description : String
  benefits : List String
  good_for : List String
  risk_level : String
  reason : String
deriving DecidableEq, Repr

/-- One element of a `searchSafetyData` result list:
`{ data : { ingredient_name, details, risk }, similarity }`. -/
structure SafetyMatch where
  ingredient_name : Option String
  details : Option String
  risk : Option String
  similarity : ℚ
deriving DecidableEq, Repr

/-- An entry of `matched_substances` in a safety context. -/
structure MatchedSubstance where
  name : String
  details : String
  risk : String
  similarity : ℚ
deriving DecidableEq, Repr

/-- The per-ingredient safety context built by `retrieveSafetyContext`. -/
structure SafetyContext where
  has_safety_concerns : Bool
  matched_substances : List MatchedSubstance
  highest_similarity : ℚ
deriving DecidableEq, Repr

/-- The zero-value context (`else` branch of the context builder). -/
def zeroContext : SafetyContext :=
  { has_safety_concerns := false, matched_substances := [], highest_similarity := 0 }

/-- One parsed object of an LLM response.  Every field may be absent. -/
structure LLMResult where
  name : Option String
  inci_name : Option String
  description : Option String
  summary : Option String
  benefits : Option (List String)
  good_for : Option (List String)
  risk_level : Option String
  reason : Option String
deriving DecidableEq, Repr

/-- Outcome of one batch call to the generation endpoint, as observed by
`processBatch` after `axios.post`, content extraction and `JSON.parse`:
either some throw along the way (`failure`, carrying `error.message`) or
the normalized array of parsed objects (`results`; a `none` entry is a
JSON `null` slot, which the `results[idx] ||` fallback also replaces). -/
inductive LLMResponse where
  | failure (msg : String)
  | results (rs : List (Option LLMResult))
deriving DecidableEq, Repr

/-- The context map handed to the batch generator (`undefined` off-domain). -/
def RagMap := String → Option SafetyContext

/-- The external world of one `enrichIngredientsWithDetails` call. -/
structure Env where
  /-- Current contents of the `IngredientAI` collection. -/
  db : List IngredientDoc
  /-- When `some msg`, `IngredientAI.find` rejects with this message. -/
  findFails : Option String
  /-- Environment variable `process.env.HYPER_CLOVA_API_KEY`. -/
  apiKey : Option String
  /-- Environment variable `process.env.HYPER_CLOVA_API_URL`. -/
  apiUrl : Option String
  /-- Oracle for `searchSafetyData(name, 1, 0.8)`: ranked matches, or a
  rejection. -/
  search : String → Except String (List SafetyMatch)
  /-- The generation endpoint's behaviour for one batch: the prompt is a
  function of the batch names and the rag context, so the oracle receives
  both. -/
  llm : List String → RagMap → LLMResponse
  /-- When `true`, `IngredientAI.updateOne(..., { upsert: true })` for
  this document rejects (caught and logged by the source). -/
  upsertFails : IngredientDoc → Bool

/-- JS `Map.prototype.set`: later writes win. -/
def mapSet (m : String → Option IngredientDoc) (k : String) (v : IngredientDoc) :
    String → Option IngredientDoc :=
  fun q => if q = k then some v else m q

/-- MongoDB `updateOne({ name: doc.name }, { $set: doc }, { upsert: true })`:
replace the first document with this name, or append. -/
def dbUpsert (db : List IngredientDoc) (doc : IngredientDoc) : List IngredientDoc :=
  match db with
  | [] => [doc]
  | d :: rest => if d.name = doc.name then doc :: rest else d :: dbUpsert rest doc

/-- The context builder (body of the `allResults.forEach` in
`retrieveSafetyContext`, lines 123–146): keep only matches with
`similarity > 0.85`; if any survive, flag safety concerns, keep the
whole filtered list and report the first survivor's similarity,
otherwise produce the zero-value context. -/
def buildSafetyContext (safetyResults : List SafetyMatch) : SafetyContext :=
  match safetyResults.filter (fun r => decide ((85 : ℚ)/100 < r.similarity)) with
  | [] => zeroContext
  | top :: restHigh =>
    { has_safety_concerns := true,
      matched_substances := (top :: restHigh).map (fun r =>
        { name := jsOr r.ingredient_name "Unknown substance",
          details := jsOr r.details "No details available",
          risk := jsOr r.risk "Unknown",
          similarity := r.similarity }),
      highest_similarity := top.similarity }

/-- Embedding of `retrieveSafetyContext`: one isolated search per name
(a per-call rejection is caught and replaced by the empty result list),
folded into a name-keyed context map. -/
def retrieveSafetyContext (search : String → Except String (List SafetyMatch))
    (ingredientNames : List String) : RagMap :=
  fun q =>
    if q ∈ ingredientNames then
      some (buildSafetyContext (match search q with
        | .ok safetyResults => safetyResults
        | .error _ => []))
    else none

/-- The minimal fallback object produced inside `processBatch`. -/
def fallbackResult (name reasonMsg : String) : LLMResult :=
  { name := some name, inci_name := none,
    description := some "Information not available", summary := none,
    benefits := some [], good_for := some [],
    risk_level := some "Unknown", reason := some reasonMsg }

/-- The reconciliation `batch.map((name, idx) => results[idx] || fallback)`:
position `idx` of the batch takes `results[idx]`, with the index-aligned
fallback for absent (or JSON-`null`) slots. -/
def fillBatch (rs : List (Option LLMResult)) : Nat → List String → List LLMResult
  | _, [] => []
  | idx, name :: rest =>
    ((rs.get? idx).bind id).getD (fallbackResult name "LLM response incomplete") ::
      fillBatch rs (idx + 1) rest

/-- Embedding of `processBatch`: one generation call for one batch.  A throw anywhere
(request, content extraction, parse) falls to the whole-batch fallback;
otherwise the parsed list is reconciled against the batch by index. -/
def processBatch (llm : List String → RagMap → LLMResponse) (ragContext : RagMap)
    (batch : List String) : List LLMResult :=
  match llm batch ragContext with
  | .failure msg =>
    batch.map (fun name => fallbackResult name ("LLM error: " ++ msg))
  | .results rs => fillBatch rs 0 batch

/-- The fixed generation batch size. -/
def BATCH_SIZE : Nat := 5

/-- The batching loop `for (let i = 0; i < n; i += BATCH_SIZE)
batches.push(slice(i, i + BATCH_SIZE))` with `BATCH_SIZE = 5`, unrolled
to a structural recursion so that it computes by reduction. -/
def chunkList : List α → List (List α)
  | [] => []
  | [a] => [[a]]
  | [a, b] => [[a, b]]
  | [a, b, c] => [[a, b, c]]
  | [a, b, c, d] => [[a, b, c, d]]
  | a :: b :: c :: d :: e :: rest => [a, b, c, d, e] :: chunkList rest

/-- Embedding of `fetchIngredientFromLLMWithRAG`: throw if either
credential is falsy, else process every ≤5-sized batch and flatten in
order. -/
def fetchIngredientFromLLMWithRAG (env : Env) (ingredientNames : List String)
    (ragContext : RagMap) : Except String (List LLMResult) :=
  if jsTruthy env.apiKey && jsTruthy env.apiUrl then
    .ok ((chunkList ingredientNames).map (processBatch env.llm ragContext)).flatten
  else
    .error "HYPER CLOVA API credentials not set"

/-- The document cached and returned for one LLM result (lines 48–55). -/
def docOfLLMResult (llmResult : LLMResult) (ingredientName : String) : IngredientDoc :=
  { name := jsOr llmResult.name (jsOr llmResult.inci_name ingredientName),
    description := jsOr llmResult.description (jsOr llmResult.summary ""),
    benefits := llmResult.benefits.getD [],
    good_for := llmResult.good_for.getD [],
    risk_level := jsOr llmResult.risk_level "Unknown",
    reason := jsOr llmResult.reason "" }

/-- The minimal fallback document set for every still-missing name when
the RAG + LLM step throws as a whole (lines 72–81). -/
def fallbackDoc (ingredientName : String) : IngredientDoc :=
  { name := ingredientName, description := "Information not available",
    benefits := [], good_for := [], risk_level := "Unknown",
    reason := "LLM fetch failed" }

/-- The map built from the cache-hit documents (lines 26–29). -/
def aiMapOfFind (aiResults : List IngredientDoc) : String → Option IngredientDoc :=
  aiResults.foldl (fun m item => mapSet m item.name item) (fun _ => none)

/-- The cache-hit documents: `IngredientAI.find({ name: { $in: names } })`. -/
def findResults (db : List IngredientDoc) (ingredientNames : List String) :
    List IngredientDoc :=
  db.filter (fun d => decide (d.name ∈ ingredientNames))

/-- The still-missing list (line 32): input names absent from the map.
Duplicates are NOT collapsed. -/
def stillMissingOf (env : Env) (ingredientNames : List String) : List String :=
  ingredientNames.filter
    (fun name => !(aiMapOfFind (findResults env.db ingredientNames) name).isSome)

/-- The caching loop (lines 44–68): pair each still-missing name with
its LLM result, build the document, write it into the map and upsert it
into the collection (an upsert rejection is caught: the collection is
left unchanged, the map write still happens). -/
def cacheLoop (env : Env) :
    (String → Option IngredientDoc) × List IngredientDoc →
    List (String × LLMResult) →
    (String → Option IngredientDoc) × List IngredientDoc
  | st, [] => st
  | st, (ingredientName, llmResult) :: rest =>
    let doc := docOfLLMResult llmResult ingredientName
    cacheLoop env
      (mapSet st.1 ingredientName doc,
       if env.upsertFails doc then st.2 else dbUpsert st.2 doc)
      rest

/-- Steps 1–3 of `enrichIngredientsWithDetails`: the final name-keyed
map and the final contents of the `IngredientAI` collection, after the
cache lookup, the RAG + LLM step (or its whole-step fallback) and the
caching loop. -/
def finalState (env : Env) (ingredientNames : List String) :
    (String → Option IngredientDoc) × List IngredientDoc :=
  let aiMap0 := aiMapOfFind (findResults env.db ingredientNames)
  let stillMissing := stillMissingOf env ingredientNames
  if stillMissing.isEmpty then (aiMap0, env.db)
  else
    let ragContext := retrieveSafetyContext env.search stillMissing
    match fetchIngredientFromLLMWithRAG env stillMissing ragContext with
    | .ok llmResults => cacheLoop env (aiMap0, env.db) (stillMissing.zip llmResults)
    | .error _ =>
      (stillMissing.foldl (fun m name => mapSet m name (fallbackDoc name)) aiMap0,
       env.db)

/-- Embedding of `enrichIngredientsWithDetails`.  Returns the enriched
list together with the final contents of the `IngredientAI` collection,
or the error that escaped the function (the cache lookup of step 1 is
the one un-guarded external call). -/
def enrichIngredientsWithDetails (env : Env) (ingredientNames : List String) :
    Except String (List IngredientDoc × List IngredientDoc) :=
  if ingredientNames.isEmpty then .ok ([], env.db)
  else
    match env.findFails with
    | some msg => .error msg
    | none =>
      let st := finalState env ingredientNames
      .ok ((ingredientNames.map (fun name => st.1 name)).filterMap id, st.2)

/-- An LLM result that reports no usable `name` and no usable
`inci_name`, so that line 49 falls through to the input ingredient name. -/
def reportsNoName (r : LLMResult) : Prop :=
  jsOr r.name "" = "" ∧ jsOr r.inci_name "" = ""

/-- A generation oracle is well-named when every object it returns
reports no overriding name, i.e. the cached document keeps the name the
ingredient was requested under. -/
def wellNamed (llm : List String → RagMap → LLMResponse) : Prop :=
  ∀ batch ctx rs, llm batch ctx = .results rs →
    ∀ o ∈ rs, ∀ r, o = some r → reportsNoName r

/-! Concrete fixtures used by counterexamples and witnesses. -/

/-- A search oracle that finds nothing. -/
def noSearch : String → Except String (List SafetyMatch) := fun _ => .ok []

/-- A baseline environment: empty cache, credentials present, search
finds nothing, every generation call throws, upserts succeed. -/
def envBase : Env :=
  { db := [], findFails := none, apiKey := some "key", apiUrl := some "url",
    search := noSearch,
    llm := fun _ _ => .failure "ECONNRESET",
    upsertFails := fun _ => false }

/-- A generation result whose `name` field differs from the requested
ingredient name. -/
def renamedResult : LLMResult :=
  { name := some "Renamed Substance", inci_name := none,
    description := some "desc", summary := none,
    benefits := some ["a", "b", "c"], good_for := some ["dry"],
    risk_level := some "low-risk", reason := some "fine" }

/-- An environment whose generation service answers one object carrying
a different name than the requested ingredient. -/
def envRename : Env :=
  { envBase with llm := fun _ _ => .results [some renamedResult] }

/-- A generation result that reports no name of its own. -/
def anonResult : LLMResult :=
  { name := none, inci_name := none,
    description := some "desc", summary := none,
    benefits := some ["a", "b", "c"], good_for := some ["oily"],
    risk_level := some "no-risk", reason := some "fine" }

/-- An environment whose generation service answers one anonymous
object, so the requested name is kept. -/
def envEcho : Env :=
  { envBase with llm := fun _ _ => .results [some anonResult] }

/-- A cached document for the name `"Aqua"`. -/
def aquaDoc : IngredientDoc :=
  { name := "Aqua", description := "Water", benefits := ["hydration"],
    good_for := ["dry"], risk_level := "no-risk", reason := "solvent" }

/-- An environment with one cached document and missing credentials. -/
def envNoCreds : Env :=
  { envBase with apiKey := none, db := [aquaDoc] }

/-- An environment whose cache lookup rejects. -/
def envFindFail : Env :=
  { envBase with findFails := some "database connection lost" }

/-- A safety match at similarity 0.82 (above the 0.8 retrieval floor,
below the 0.85 alert threshold). -/
def match82 : SafetyMatch :=
  { ingredient_name := some "Picric Acid", details := some "explosive",
    risk := some "High", similarity := 82/100 }

/-- A safety match at similarity 0.90 (above the 0.85 alert threshold). -/
def match90 : SafetyMatch :=
  { ingredient_name := some "Phenylbutazone", details := some "banned",
    risk := some "High (Banned)", similarity := 90/100 }

/-- Twelve ingredient names, for the batch-partition property. -/
def twelveNames : List String :=
  ["n01", "n02", "n03", "n04", "n05", "n06", "n07", "n08", "n09", "n10", "n11", "n12"]

/-- A search oracle that rejects for the single name `"X"` and finds
nothing elsewhere. -/
def searchFailX : String → Except String (List SafetyMatch) :=
  fun q => if q = "X" then .error "vector service down" else .ok []

/-! ### Helper lemmas -/

theorem jsOr_eq_default {o : Option String} (h : jsOr o "" = "") (d : String) :
    jsOr o d = d := by
  cases o with
  | none => rfl
  | some s =>
    simp only [jsOr] at h ⊢
    by_cases hs : s.isEmpty
    · simp [hs]
    · rw [if_neg hs] at h
      subst h
      exact absurd (by decide) hs

theorem reportsNoName_jsOr {r : LLMResult} (h : reportsNoName r) (q : String) :
    jsOr r.name (jsOr r.inci_name q) = q := by
  rw [jsOr_eq_default h.1, jsOr_eq_default h.2]

theorem docOf_fallbackResult_name (q m : String) :
    (docOfLLMResult (fallbackResult q m) q).name = q := by
  show jsOr (some q) (jsOr none q) = q
  simp only [jsOr]
  split <;> rfl

theorem mapSet_isSome {m : String → Option IngredientDoc} {k : String}
    {v : IngredientDoc} {q : String} (h : (m q).isSome) :
    ((mapSet m k v) q).isSome := by
  simp only [mapSet]
  split <;> simp_all

theorem foldl_mapSet_const (g : String → IngredientDoc) :
    ∀ (l : List String) (m : String → Option IngredientDoc) (q : String),
      (l.foldl (fun m name => mapSet m name (g name)) m) q =
        if q ∈ l then some (g q) else m q := by
  intro l
  induction l with
  | nil => simp
  | cons a rest ih =>
    intro m q
    rw [List.foldl_cons, ih]
    by_cases hq : q ∈ rest
    · simp [hq]
    · by_cases hqa : q = a
      · subst hqa
        simp [hq, mapSet]
      · simp [hq, hqa, mapSet]

theorem aiMapOfFind_inv :
    ∀ (rs : List IngredientDoc) (m : String → Option IngredientDoc),
      (∀ q d, m q = some d → d.name = q) →
      ∀ q d, (rs.foldl (fun m item => mapSet m item.name item) m) q = some d → d.name = q := by
  intro rs
  induction rs with
  | nil => intro m hm; simpa using hm
  | cons a rest ih =>
    intro m hm q d
    rw [List.foldl_cons]
    refine ih _ ?_ q d
    intro q' d' h'
    simp only [mapSet] at h'
    split at h'
    · cases h'
      exact (by assumption : q' = a.name).symm
    · exact hm q' d' h'

theorem aiMapOfFind_name {rs : List IngredientDoc} {q : String} {d : IngredientDoc}
    (h : aiMapOfFind rs q = some d) : d.name = q := by
  exact aiMapOfFind_inv rs _ (fun _ _ h' => by cases h') q d h

theorem foldl_mapSet_find_isSome :
    ∀ (rs : List IngredientDoc) (m : String → Option IngredientDoc) (q : String),
      (m q).isSome →
      ((rs.foldl (fun m item => mapSet m item.name item) m) q).isSome := by
  intro rs
  induction rs with
  | nil => intro m q h; simpa using h
  | cons a rest ih =>
    intro m q h
    rw [List.foldl_cons]
    exact ih _ q (mapSet_isSome h)

theorem foldl_mapSet_find_isSome_of_mem :
    ∀ (rs : List IngredientDoc) (m : String → Option IngredientDoc) (q : String),
      (∃ d ∈ rs, d.name = q) →
      ((rs.foldl (fun m item => mapSet m item.name item) m) q).isSome := by
  intro rs
  induction rs with
  | nil =>
    rintro m q ⟨d, hd, _⟩
    cases hd
  | cons a rest ih =>
    rintro m q ⟨d, hd, hname⟩
    rw [List.foldl_cons]
    rcases List.mem_cons.mp hd with h1 | h2
    · have hq : a.name = q := by rw [← h1]; exact hname
      exact foldl_mapSet_find_isSome rest _ q (by simp [mapSet, ← hq])
    · exact ih _ q ⟨d, h2, hname⟩

theorem aiMapOfFind_isSome_of_mem {rs : List IngredientDoc} {q : String}
    (h : ∃ d ∈ rs, d.name = q) : (aiMapOfFind rs q).isSome :=
  foldl_mapSet_find_isSome_of_mem rs _ q h

theorem chunkList_flatten : ∀ (l : List String), (chunkList l).flatten = l := by
  intro l
  induction l using chunkList.induct <;> simp_all [chunkList]

theorem chunkList_batch_size :
    ∀ (l : List String), ∀ b ∈ chunkList l, b.length ≤ BATCH_SIZE ∧ b ≠ [] := by
  intro l
  induction l using chunkList.induct with
  | case1 =>
    intro b hb
    simp [chunkList] at hb
  | case2 _ =>
    intro b hb
    simp only [chunkList, List.mem_singleton] at hb
    subst hb
    exact ⟨by simp [BATCH_SIZE], by simp⟩
  | case3 _ _ =>
    intro b hb
    simp only [chunkList, List.mem_singleton] at hb
    subst hb
    exact ⟨by simp [BATCH_SIZE], by simp⟩
  | case4 _ _ _ =>
    intro b hb
    simp only [chunkList, List.mem_singleton] at hb
    subst hb
    exact ⟨by simp [BATCH_SIZE], by simp⟩
  | case5 _ _ _ _ =>
    intro b hb
    simp only [chunkList, List.mem_singleton] at hb
    subst hb
    exact ⟨by simp [BATCH_SIZE], by simp⟩
  | case6 _ _ _ _ _ rest ih =>
    intro b hb
    simp only [chunkList, List.mem_cons] at hb
    rcases hb with rfl | hb
    · exact ⟨by simp [BATCH_SIZE], by simp⟩
    · exact ih b hb

theorem cacheLoop_fst_not_mem (env : Env) :
    ∀ (pairs : List (String × LLMResult))
      (st : (String → Option IngredientDoc) × List IngredientDoc) (q : String),
      q ∉ pairs.map Prod.fst → (cacheLoop env st pairs).1 q = st.1 q := by
  intro pairs
  induction pairs with
  | nil => intro st q _; rfl
  | cons p rest ih =>
    intro st q hq
    simp only [List.map_cons, List.mem_cons] at hq
    push_neg at hq
    rw [cacheLoop, ih _ q hq.2]
    simp [mapSet, hq.1]

theorem cacheLoop_fst_isSome (env : Env) :
    ∀ (pairs : List (String × LLMResult))
      (st : (String → Option IngredientDoc) × List IngredientDoc) (q : String),
      (st.1 q).isSome → ((cacheLoop env st pairs).1 q).isSome := by
  intro pairs
  induction pairs with
  | nil => intro st q h; exact h
  | cons p rest ih =>
    intro st q h
    rw [cacheLoop]
    exact ih _ q (mapSet_isSome h)

theorem cacheLoop_fst_isSome_of_mem (env : Env) :
    ∀ (pairs : List (String × LLMResult))
      (st : (String → Option IngredientDoc) × List IngredientDoc) (q : String),
      q ∈ pairs.map Prod.fst → ((cacheLoop env st pairs).1 q).isSome := by
  intro pairs
  induction pairs with
  | nil => intro st q h; cases h
  | cons p rest ih =>
    intro st q hq
    rw [cacheLoop]
    simp only [List.map_cons, List.mem_cons] at hq
    rcases hq with h1 | h2
    · exact cacheLoop_fst_isSome env rest _ q (by simp [mapSet, h1])
    · exact ih _ q h2

theorem cacheLoop_fst_inv (env : Env) (P : String → IngredientDoc → Prop) :
    ∀ (pairs : List (String × LLMResult))
      (st : (String → Option IngredientDoc) × List IngredientDoc),
      (∀ q d, st.1 q = some d → P q d) →
      (∀ p ∈ pairs, P p.1 (docOfLLMResult p.2 p.1)) →
      ∀ q d, (cacheLoop env st pairs).1 q = some d → P q d := by
  intro pairs
  induction pairs with
  | nil => intro st hst _ q d h; exact hst q d h
  | cons p rest ih =>
    intro st hst hp q d
    rw [cacheLoop]
    refine ih _ ?_ (fun p' hp' => hp p' (List.mem_cons_of_mem _ hp')) q d
    intro q' d' h'
    simp only [mapSet] at h'
    split at h'
    · cases h'
      exact (by assumption : q' = p.1) ▸ hp p (List.mem_cons_self _ _)
    · exact hst q' d' h'

theorem fillBatch_length (rs : List (Option LLMResult)) :
    ∀ (batch : List String) (idx : Nat), (fillBatch rs idx batch).length = batch.length := by
  intro batch
  induction batch with
  | nil => intro idx; rfl
  | cons a rest ih => intro idx; simp [fillBatch, ih]

theorem processBatch_length (llm : List String → RagMap → LLMResponse) (ctx : RagMap)
    (batch : List String) : (processBatch llm ctx batch).length = batch.length := by
  unfold processBatch
  split
  · simp
  · exact fillBatch_length _ batch 0

theorem fillBatch_get? (rs : List (Option LLMResult)) :
    ∀ (batch : List String) (idx i : Nat),
      (fillBatch rs idx batch).get? i =
        (batch.get? i).map (fun name =>
          ((rs.get? (idx + i)).bind id).getD (fallbackResult name "LLM response incomplete")) := by
  intro batch
  induction batch with
  | nil => intro idx i; simp [fillBatch]
  | cons a rest ih =>
    intro idx i
    cases i with
    | zero => simp [fillBatch]
    | succ i =>
      simp only [fillBatch, List.get?_cons_succ]
      rw [ih (idx + 1) i]
      have h : idx + 1 + i = idx + (i + 1) := by omega
      rw [h]

theorem flatten_map_processBatch_length (g : List String → List LLMResult)
    (hg : ∀ b, (g b).length = b.length) :
    ∀ (l : List String), (((chunkList l).map g).flatten).length = l.length := by
  intro l
  rw [List.length_flatten, List.map_map]
  have h : List.map (List.length ∘ g) (chunkList l) = List.map List.length (chunkList l) :=
    List.map_congr_left (fun b _ => by simp [hg])
  rw [h, ← List.length_flatten, chunkList_flatten]

theorem fetch_ok (env : Env) (ingredientNames : List String) (ragContext : RagMap)
    (hc : (jsTruthy env.apiKey && jsTruthy env.apiUrl) = true) :
    fetchIngredientFromLLMWithRAG env ingredientNames ragContext =
      .ok (((chunkList ingredientNames).map (processBatch env.llm ragContext)).flatten) := by
  unfold fetchIngredientFromLLMWithRAG
  rw [if_pos hc]

theorem fetch_error (env : Env) (ingredientNames : List String) (ragContext : RagMap)
    (hc : (jsTruthy env.apiKey && jsTruthy env.apiUrl) = false) :
    fetchIngredientFromLLMWithRAG env ingredientNames ragContext =
      .error "HYPER CLOVA API credentials not set" := by
  unfold fetchIngredientFromLLMWithRAG
  rw [if_neg (by simp [hc])]

theorem fetch_ok_length {env : Env} {ingredientNames : List String} {ragContext : RagMap}
    {rs : List LLMResult}
    (h : fetchIngredientFromLLMWithRAG env ingredientNames ragContext = .ok rs) :
    rs.length = ingredientNames.length := by
  unfold fetchIngredientFromLLMWithRAG at h
  split at h
  · cases h
    exact flatten_map_processBatch_length _ (processBatch_length env.llm ragContext) _
  · cases h

theorem zip_map_self {β : Type} (f : String → β) :
    ∀ (l : List String), ∀ p ∈ l.zip (l.map f), p.2 = f p.1 := by
  intro l
  induction l with
  | nil => intro p hp; cases hp
  | cons a rest ih =>
    intro p hp
    rcases List.mem_cons.mp hp with h1 | h2
    · subst h1; rfl
    · exact ih p h2

theorem zip_fillBatch (rs : List (Option LLMResult)) :
    ∀ (b : List String) (idx : Nat), ∀ p ∈ b.zip (fillBatch rs idx b),
      ∃ k, p.2 = ((rs.get? k).bind id).getD (fallbackResult p.1 "LLM response incomplete") := by
  intro b
  induction b with
  | nil => intro idx p hp; cases hp
  | cons a rest ih =>
    intro idx p hp
    simp only [fillBatch] at hp
    rcases List.mem_cons.mp hp with h1 | h2
    · subst h1
      exact ⟨idx, rfl⟩
    · exact ih (idx + 1) p h2

theorem zip_chunk_flatten (P : String × LLMResult → Prop) (g : List String → List LLMResult)
    (hlen : ∀ b : List String, (g b).length = b.length)
    (hP : ∀ b : List String, ∀ p ∈ b.zip (g b), P p) :
    ∀ (l : List String), ∀ p ∈ l.zip (((chunkList l).map g).flatten), P p := by
  intro l
  induction l using chunkList.induct with
  | case1 => intro p hp; cases hp
  | case2 a => intro p hp; exact hP [a] p (by simpa [chunkList] using hp)
  | case3 a b => intro p hp; exact hP [a, b] p (by simpa [chunkList] using hp)
  | case4 a b c => intro p hp; exact hP [a, b, c] p (by simpa [chunkList] using hp)
  | case5 a b c d => intro p hp; exact hP [a, b, c, d] p (by simpa [chunkList] using hp)
  | case6 a b c d e rest ih =>
    intro p hp
    have hsplit : (a :: b :: c :: d :: e :: rest).zip
        (((chunkList (a :: b :: c :: d :: e :: rest)).map g).flatten) =
        ([a, b, c, d, e].zip (g [a, b, c, d, e])) ++
          (rest.zip (((chunkList rest).map g).flatten)) := by
      show ([a, b, c, d, e] ++ rest).zip
          ((g [a, b, c, d, e] :: (chunkList rest).map g).flatten) = _
      rw [List.flatten_cons, List.zip_append (hlen [a, b, c, d, e]).symm]
    rw [hsplit] at hp
    rcases List.mem_append.mp hp with h1 | h2
    · exact hP [a, b, c, d, e] p h1
    · exact ih p h2

theorem filterMap_id_map {α : Type} (f : String → Option α) (g : String → α) :
    ∀ (l : List String), (∀ x ∈ l, f x = some (g x)) →
      (l.map f).filterMap id = l.map g := by
  intro l
  induction l with
  | nil => intro _; rfl
  | cons a rest ih =>
    intro h
    simp only [List.map_cons, List.filterMap_cons]
    rw [h a (List.mem_cons_self _ _)]
    simp only [id]
    rw [ih (fun x hx => h x (List.mem_cons_of_mem _ hx))]

theorem mem_stillMissingOf {env : Env} {names : List String} {q : String} :
    q ∈ stillMissingOf env names ↔
      q ∈ names ∧ (aiMapOfFind (findResults env.db names) q).isSome = false := by
  unfold stillMissingOf
  rw [List.mem_filter]
  simp

theorem stillMissing_nil_isSome {env : Env} {names : List String}
    (h : (stillMissingOf env names).isEmpty = true) :
    ∀ q ∈ names, (aiMapOfFind (findResults env.db names) q).isSome = true := by
  intro q hq
  by_contra hs
  have : q ∈ stillMissingOf env names :=
    mem_stillMissingOf.mpr ⟨hq, by simpa using hs⟩
  rw [List.isEmpty_iff.mp h] at this
  cases this

theorem finalState_isSome (env : Env) (names : List String) :
    ∀ q ∈ names, ((finalState env names).1 q).isSome := by
  intro q hq
  simp only [finalState]
  by_cases hsm : (stillMissingOf env names).isEmpty
  · rw [if_pos hsm]
    exact stillMissing_nil_isSome hsm q hq
  · rw [if_neg hsm]
    cases hfetch : fetchIngredientFromLLMWithRAG env (stillMissingOf env names)
        (retrieveSafetyContext env.search (stillMissingOf env names)) with
    | ok llmResults =>
      by_cases hS : (aiMapOfFind (findResults env.db names) q).isSome
      · exact cacheLoop_fst_isSome env _ _ q hS
      · have hmem : q ∈ stillMissingOf env names :=
          mem_stillMissingOf.mpr ⟨hq, by simpa using hS⟩
        have hlen : (stillMissingOf env names).length ≤ llmResults.length := by
          rw [fetch_ok_length hfetch]
        refine cacheLoop_fst_isSome_of_mem env _ _ q ?_
        rw [List.map_fst_zip _ _ hlen]
        exact hmem
    | error e =>
      dsimp only
      rw [foldl_mapSet_const]
      by_cases hmem : q ∈ stillMissingOf env names
      · rw [if_pos hmem]; rfl
      · rw [if_neg hmem]
        by_contra hS
        exact hmem (mem_stillMissingOf.mpr ⟨hq, by simpa using hS⟩)

theorem enrich_ok_map (env : Env) (names : List String) (hf : env.findFails = none) :
    enrichIngredientsWithDetails env names =
      .ok (names.map (fun n => ((finalState env names).1 n).getD (fallbackDoc n)),
           (finalState env names).2) := by
  simp only [enrichIngredientsWithDetails]
  by_cases hn : names.isEmpty
  · rw [if_pos hn]
    have hnil : names = [] := List.isEmpty_iff.mp hn
    subst hnil
    rfl
  · rw [if_neg hn, hf]
    have hmap : (names.map (fun name => (finalState env names).1 name)).filterMap id =
        names.map (fun n => ((finalState env names).1 n).getD (fallbackDoc n)) := by
      refine filterMap_id_map _ _ names ?_
      intro x hx
      obtain ⟨v, hv⟩ := Option.isSome_iff_exists.mp (finalState_isSome env names x hx)
      rw [hv]
      rfl
    rw [hmap]

theorem processBatch_zip_docName {llm : List String → RagMap → LLMResponse} {ctx : RagMap}
    (hw : wellNamed llm) :
    ∀ b : List String, ∀ p ∈ b.zip (processBatch llm ctx b),
      (docOfLLMResult p.2 p.1).name = p.1 := by
  intro b p hp
  unfold processBatch at hp
  cases hllm : llm b ctx with
  | failure msg =>
    rw [hllm] at hp
    rw [zip_map_self _ b p hp]
    exact docOf_fallbackResult_name p.1 _
  | results rs =>
    rw [hllm] at hp
    obtain ⟨k, hk⟩ := zip_fillBatch rs b 0 p hp
    cases hg : rs.get? k with
    | none =>
      rw [hg] at hk
      rw [hk]
      exact docOf_fallbackResult_name p.1 _
    | some o =>
      cases o with
      | none =>
        rw [hg] at hk
        rw [hk]
        exact docOf_fallbackResult_name p.1 _
      | some r =>
        rw [hg] at hk
        have hnn : reportsNoName r := hw b ctx rs hllm _ (List.get?_mem hg) r rfl
        rw [hk]
        exact reportsNoName_jsOr hnn p.1

theorem finalState_name (env : Env) (names : List String) (hw : wellNamed env.llm) :
    ∀ q d, (finalState env names).1 q = some d → d.name = q := by
  intro q d
  simp only [finalState]
  by_cases hsm : (stillMissingOf env names).isEmpty
  · rw [if_pos hsm]
    exact fun h => aiMapOfFind_name h
  · rw [if_neg hsm]
    cases hfetch : fetchIngredientFromLLMWithRAG env (stillMissingOf env names)
        (retrieveSafetyContext env.search (stillMissingOf env names)) with
    | ok llmResults =>
      dsimp only
      intro h
      refine cacheLoop_fst_inv env (fun q d => d.name = q) _ _
        (fun q' d' h' => aiMapOfFind_name h') ?_ q d h
      intro p hp
      have hres : llmResults = ((chunkList (stillMissingOf env names)).map
          (processBatch env.llm (retrieveSafetyContext env.search
            (stillMissingOf env names)))).flatten := by
        rw [fetch_ok env _ _ ?_] at hfetch
        · exact (Except.ok.inj hfetch).symm
        · unfold fetchIngredientFromLLMWithRAG at hfetch
          by_contra hc
          rw [if_neg (by simpa using hc)] at hfetch
          cases hfetch
      rw [hres] at hp
      exact zip_chunk_flatten (fun p => (docOfLLMResult p.2 p.1).name = p.1) _
        (processBatch_length env.llm _) (processBatch_zip_docName hw) _ p hp
    | error e =>
      dsimp only
      intro h
      rw [foldl_mapSet_const] at h
      split at h
      · cases h
        rfl
      · exact aiMapOfFind_name h

theorem finalState_no_creds (env : Env) (names : List String)
    (hc : (jsTruthy env.apiKey && jsTruthy env.apiUrl) = false) :
    (finalState env names).2 = env.db ∧
    ∀ q ∈ names, (finalState env names).1 q =
      some ((aiMapOfFind (findResults env.db names) q).getD (fallbackDoc q)) := by
  simp only [finalState]
  by_cases hsm : (stillMissingOf env names).isEmpty
  · rw [if_pos hsm]
    refine ⟨rfl, ?_⟩
    intro q hq
    obtain ⟨v, hv⟩ := Option.isSome_iff_exists.mp (stillMissing_nil_isSome hsm q hq)
    dsimp only
    rw [hv]
    rfl
  · rw [if_neg hsm, fetch_error env _ _ hc]
    dsimp only
    refine ⟨rfl, ?_⟩
    intro q hq
    rw [foldl_mapSet_const]
    by_cases hmem : q ∈ stillMissingOf env names
    · rw [if_pos hmem]
      have : (aiMapOfFind (findResults env.db names) q).isSome = false :=
        (mem_stillMissingOf.mp hmem).2
      obtain heq : aiMapOfFind (findResults env.db names) q = none :=
        Option.not_isSome_iff_eq_none.mp (by simp [this])
      rw [heq]
      rfl
    · rw [if_neg hmem]
      have hs : (aiMapOfFind (findResults env.db names) q).isSome := by
        by_contra hS
        exact hmem (mem_stillMissingOf.mpr ⟨hq, by simpa using hS⟩)
      obtain ⟨v, hv⟩ := Option.isSome_iff_exists.mp hs
      rw [hv]
      rfl

theorem chunkList_gt {l : List String} (h : 5 < l.length) :
    chunkList l = l.take 5 :: chunkList (l.drop 5) := by
  rcases l with _ | ⟨a, _ | ⟨b, _ | ⟨c, _ | ⟨d, _ | ⟨e, _ | ⟨f, rest⟩⟩⟩⟩⟩⟩
  · exfalso; simp only [List.length_nil] at h; omega
  · exfalso; simp only [List.length_cons, List.length_nil] at h; omega
  · exfalso; simp only [List.length_cons, List.length_nil] at h; omega
  · exfalso; simp only [List.length_cons, List.length_nil] at h; omega
  · exfalso; simp only [List.length_cons, List.length_nil] at h; omega
  · exfalso; simp only [List.length_cons, List.length_nil] at h; omega
  · rfl

theorem chunkList_le {l : List String} (h0 : l ≠ []) (h : l.length ≤ 5) :
    chunkList l = [l] := by
  rcases l with _ | ⟨a, _ | ⟨b, _ | ⟨c, _ | ⟨d, _ | ⟨e, _ | ⟨f, rest⟩⟩⟩⟩⟩⟩
  · exact absurd rfl h0
  · rfl
  · rfl
  · rfl
  · rfl
  · rfl
  · exfalso; simp only [List.length_cons] at h; omega

theorem append_reason_ne_empty (msg : String) : ("LLM error: " ++ msg) ≠ "" := by
  simp [String.ext_iff]

theorem dbUpsert_mem (db : List IngredientDoc) (doc : IngredientDoc) :
    doc ∈ dbUpsert db doc := by
  induction db with
  | nil => exact List.mem_singleton.mpr rfl
  | cons d rest ih =>
    unfold dbUpsert
    split
    · exact List.mem_cons_self _ _
    · exact List.mem_cons_of_mem _ ih

theorem count_filter_eq (p : String → Bool) (l : List String) (a : String) :
    (l.filter p).count a = if p a then l.count a else 0 := by
  by_cases h : p a = true
  · rw [if_pos h, List.count_filter h]
  · rw [if_neg h, List.count_eq_zero]
    intro hmem
    exact h (List.of_mem_filter hmem)

/-! ### Claim theorems -/

/-- Claim C3: the context builder flags safety concerns exactly when some
retrieved candidate has similarity strictly greater than 0.85; in
particular a 0.82 match yields `has_safety_concerns = false`, a 0.90
match yields `true`; and when no candidate survives the filter it
produces the zero-value context (no matches, highest similarity 0). -/
theorem c3_context_builder_threshold (safetyResults : List SafetyMatch) :
    ((buildSafetyContext safetyResults).has_safety_concerns = true ↔
      ∃ r ∈ safetyResults, (85 : ℚ)/100 < r.similarity)
    ∧ (safetyResults.filter (fun r => decide ((85 : ℚ)/100 < r.similarity)) = [] →
        buildSafetyContext safetyResults = zeroContext)
    ∧ (buildSafetyContext [match82]).has_safety_concerns = false
    ∧ (buildSafetyContext [match90]).has_safety_concerns = true := by
  have hmain : ∀ rs : List SafetyMatch,
      ((buildSafetyContext rs).has_safety_concerns = true ↔
        ∃ r ∈ rs, (85 : ℚ)/100 < r.similarity) := by
    intro rs
    unfold buildSafetyContext
    cases hfil : rs.filter (fun r => decide ((85 : ℚ)/100 < r.similarity)) with
    | nil =>
      simp only [zeroContext]
      constructor
      · intro h
        cases h
      · rintro ⟨r, hr, hsim⟩
        have := List.filter_eq_nil_iff.mp hfil r hr
        simp [hsim] at this
    | cons top restHigh =>
      simp only [true_iff]
      have htop : top ∈ rs.filter (fun r => decide ((85 : ℚ)/100 < r.similarity)) := by
        rw [hfil]
        exact List.mem_cons_self _ _
      exact ⟨top, List.mem_of_mem_filter htop, by simpa using List.of_mem_filter htop⟩
  refine ⟨hmain safetyResults, ?_, ?_, ?_⟩
  · intro hfil
    unfold buildSafetyContext
    rw [hfil]
  · rw [Bool.eq_false_iff]
    intro htrue
    obtain ⟨r, hr, hsim⟩ := (hmain [match82]).mp htrue
    simp only [List.mem_singleton] at hr
    subst hr
    norm_num [match82] at hsim
  · exact (hmain [match90]).mpr
      ⟨match90, List.mem_singleton.mpr rfl, by norm_num [match90]⟩

/-- Witness for C3 at concrete inputs: the empty result list yields the
zero-value context, and the 0.82 / 0.90 instances land on the two sides
of the threshold. -/
theorem c3_witness :
    buildSafetyContext [] = zeroContext
    ∧ (buildSafetyContext [match82]).has_safety_concerns = false
    ∧ (buildSafetyContext [match90]).has_safety_concerns = true :=
  ⟨(c3_context_builder_threshold []).2.1 rfl,
   (c3_context_builder_threshold []).2.2.1,
   (c3_context_builder_threshold []).2.2.2⟩

/-- Claim C7: a rejection of one name's similarity-search call degrades
only that name's context to the zero-value context; all other names'
contexts are exactly what they would have been had that call not failed. -/
theorem c7_retrieval_isolation
    (search1 search2 : String → Except String (List SafetyMatch))
    (names : List String) (x e : String)
    (hx : search2 x = .error e)
    (hagree : ∀ y, y ≠ x → search2 y = search1 y) :
    (x ∈ names → retrieveSafetyContext search2 names x = some zeroContext)
    ∧ (∀ y, y ≠ x →
        retrieveSafetyContext search2 names y = retrieveSafetyContext search1 names y) := by
  constructor
  · intro hmem
    unfold retrieveSafetyContext
    rw [if_pos hmem, hx]
    rfl
  · intro y hy
    unfold retrieveSafetyContext
    by_cases hmem : y ∈ names
    · rw [if_pos hmem, if_pos hmem, hagree y hy]
    · rw [if_neg hmem, if_neg hmem]

/-- Witness for C7: with a concrete oracle failing only for `"X"`, the
context of `"X"` is the zero-value context and the context of `"Aqua"`
matches the no-failure oracle's. -/
theorem c7_witness :
    retrieveSafetyContext searchFailX ["X", "Aqua"] "X" = some zeroContext
    ∧ retrieveSafetyContext searchFailX ["X", "Aqua"] "Aqua" =
        retrieveSafetyContext noSearch ["X", "Aqua"] "Aqua" := by
  have h := c7_retrieval_isolation noSearch searchFailX ["X", "Aqua"] "X"
    "vector service down" rfl (fun y hy => by simp [searchFailX, noSearch, hy])
  exact ⟨h.1 (by simp), h.2 "Aqua" (by decide)⟩

/-- Claim C5: for every generation batch, a thrown call replaces the
whole batch by index-aligned fallback records; a parsed list shorter
than the batch fallback-fills every unfilled position; the fallback
record has exactly the minimal shape (description "Information not
available", empty benefits and good_for, risk level "Unknown") and a
non-empty reason; and the batch output always has one record per name. -/
theorem c5_batch_fallback (llm : List String → RagMap → LLMResponse) (ctx : RagMap)
    (batch : List String) :
    (processBatch llm ctx batch).length = batch.length
    ∧ (∀ name msg, fallbackResult name msg =
        { name := some name, inci_name := none,
          description := some "Information not available", summary := none,
          benefits := some [], good_for := some [],
          risk_level := some "Unknown", reason := some msg })
    ∧ (∀ msg, llm batch ctx = .failure msg →
        processBatch llm ctx batch =
          batch.map (fun name => fallbackResult name ("LLM error: " ++ msg))
        ∧ ("LLM error: " ++ msg) ≠ "")
    ∧ (∀ rs, llm batch ctx = .results rs →
        ∀ i name, batch.get? i = some name → rs.length ≤ i →
          (processBatch llm ctx batch).get? i =
            some (fallbackResult name "LLM response incomplete"))
    ∧ ("LLM response incomplete" : String) ≠ "" := by
  refine ⟨processBatch_length llm ctx batch, fun _ _ => rfl, ?_, ?_, by decide⟩
  · intro msg hmsg
    refine ⟨?_, append_reason_ne_empty msg⟩
    unfold processBatch
    rw [hmsg]
  · intro rs hrs i name hname hlen
    unfold processBatch
    rw [hrs]
    rw [fillBatch_get?, hname]
    have hnone : rs.get? (0 + i) = none := by
      rw [List.get?_eq_none]
      omega
    rw [hnone]
    rfl

/-- Witness for C5: a throwing batch call yields the two fallback
records, and a well-formed but empty parsed list fallback-fills
position 0. -/
theorem c5_witness :
    processBatch (fun _ _ => .failure "timeout") (fun _ => none) ["Aqua", "Glycerin"] =
      [fallbackResult "Aqua" "LLM error: timeout",
       fallbackResult "Glycerin" "LLM error: timeout"]
    ∧ (processBatch (fun _ _ => .results []) (fun _ => none) ["Aqua"]).get? 0 =
        some (fallbackResult "Aqua" "LLM response incomplete") := by
  constructor
  · exact ((c5_batch_fallback (fun _ _ => .failure "timeout") (fun _ => none)
      ["Aqua", "Glycerin"]).2.2.1 "timeout" rfl).1
  · exact (c5_batch_fallback (fun _ _ => .results []) (fun _ => none)
      ["Aqua"]).2.2.2.1 [] rfl 0 "Aqua" rfl (by simp)

/-- Claim C4: the batch generator partitions the missing-name list into
consecutive order-preserving batches of size at most 5 (none empty); 12
names produce exactly 3 generation calls of sizes [5, 5, 2]; and for
every generation behaviour the flattened result has exactly one record
per input name (in input order, each batch contributing its segment). -/
theorem c4_batch_partition (names : List String) :
    (chunkList names).flatten = names
    ∧ (∀ b ∈ chunkList names, b.length ≤ BATCH_SIZE ∧ b ≠ [])
    ∧ (names.length = 12 →
        (chunkList names).map List.length = [5, 5, 2] ∧ (chunkList names).length = 3)
    ∧ (∀ (env : Env) (ragContext : RagMap),
        (jsTruthy env.apiKey && jsTruthy env.apiUrl) = true →
        ∃ rs, fetchIngredientFromLLMWithRAG env names ragContext = .ok rs ∧
          rs.length = names.length) := by
  refine ⟨chunkList_flatten names, chunkList_batch_size names, ?_, ?_⟩
  · intro h12
    have h1 : chunkList names = names.take 5 :: chunkList (names.drop 5) :=
      chunkList_gt (by omega)
    have hlen7 : (names.drop 5).length = 7 := by
      simp [h12]
    have h2 : chunkList (names.drop 5) =
        (names.drop 5).take 5 :: chunkList ((names.drop 5).drop 5) :=
      chunkList_gt (by omega)
    have hlen2 : ((names.drop 5).drop 5).length = 2 := by
      simp [h12]
    have h3 : chunkList ((names.drop 5).drop 5) = [(names.drop 5).drop 5] := by
      refine chunkList_le ?_ (by omega)
      intro hnil
      rw [hnil] at hlen2
      cases hlen2
    rw [h1, h2, h3]
    constructor
    · simp only [List.map_cons, List.map_nil, List.length_take, hlen7, hlen2, h12]
      rfl
    · rfl
  · intro env ragContext hc
    refine ⟨_, fetch_ok env names ragContext hc, ?_⟩
    exact flatten_map_processBatch_length _ (processBatch_length env.llm ragContext) names

/-- Witness for C4 at twelve concrete names and a concrete environment. -/
theorem c4_witness :
    (chunkList twelveNames).map List.length = [5, 5, 2]
    ∧ (chunkList twelveNames).length = 3
    ∧ ∃ rs, fetchIngredientFromLLMWithRAG envBase twelveNames (fun _ => none) = .ok rs ∧
        rs.length = twelveNames.length := by
  refine ⟨((c4_batch_partition twelveNames).2.2.1 rfl).1,
    ((c4_batch_partition twelveNames).2.2.1 rfl).2,
    (c4_batch_partition twelveNames).2.2.2 envBase (fun _ => none) rfl⟩

/-- Claim C1 counterexample: with a generation service answering an
object whose `name` field is "Renamed Substance" for the single
requested name "Adenosine", the returned record's name field is
"Renamed Substance", not the input name: `enrich(names)[i].name ==
names[i]` fails. -/
theorem c1_counterexample :
    (enrichIngredientsWithDetails envRename ["Adenosine"]).toOption.map
        (fun p => p.1.map IngredientDoc.name) = some ["Renamed Substance"]
    ∧ "Renamed Substance" ≠ "Adenosine" :=
  ⟨rfl, by decide⟩

/-- Claim C1 as amended: the output is always aligned 1:1 with the input
(no entry is ever null, even for empty-string names), and the record at
position i is the one resolved for names[i]; its name field equals
names[i] provided the generation service does not report an overriding
`name`/`inci_name` (for cache hits and fallbacks this holds
unconditionally) — a reported name is carried through instead. -/
theorem c1_amended_alignment (env : Env) (names : List String)
    (hf : env.findFails = none) (hw : wellNamed env.llm) :
    ∃ p, enrichIngredientsWithDetails env names = .ok p ∧
      p.1.map IngredientDoc.name = names := by
  refine ⟨_, enrich_ok_map env names hf, ?_⟩
  rw [List.map_map]
  have hpt : ∀ n ∈ names,
      (IngredientDoc.name ∘ fun n => ((finalState env names).1 n).getD (fallbackDoc n)) n
        = id n := by
    intro n hn
    obtain ⟨v, hv⟩ := Option.isSome_iff_exists.mp (finalState_isSome env names n hn)
    simp only [Function.comp, hv, Option.getD_some, id]
    exact finalState_name env names hw n v hv
  rw [List.map_congr_left hpt, List.map_id]

/-- Witness for C1 (amended) with a generation service that reports no
names of its own: both records keep the requested names in order. -/
theorem c1_amended_witness :
    ∃ p, enrichIngredientsWithDetails envEcho ["Adenosine", "Aqua"] = .ok p ∧
      p.1.map IngredientDoc.name = ["Adenosine", "Aqua"] := by
  refine c1_amended_alignment envEcho ["Adenosine", "Aqua"] rfl ?_
  intro b ctx rs h o ho r hr
  cases h
  simp only [List.mem_singleton] at ho
  subst ho
  injection hr with hr'
  subst hr'
  exact ⟨rfl, rfl⟩

/-- Claim C2 counterexample: a rejection of the `IngredientAI.find`
cache lookup is not caught anywhere in `enrichIngredientsWithDetails`,
so the whole call rejects with the backing-store error instead of
treating every name as a miss. -/
theorem c2_counterexample :
    enrichIngredientsWithDetails envFindFail ["Aqua"] =
      .error "database connection lost" :=
  rfl

/-- Claim C2 as amended: a failure of the backing cache store during the
initial lookup propagates out of `enrich` for every non-empty input;
the treat-as-miss / log-only policy applies to retrieval, generation and
upsert failures, but not to the initial cache lookup. -/
theorem c2_amended_lookup_error (env : Env) (names : List String) (msg : String)
    (hf : env.findFails = some msg) (hn : names ≠ []) :
    enrichIngredientsWithDetails env names = .error msg := by
  simp only [enrichIngredientsWithDetails]
  rw [if_neg (by simp [List.isEmpty_iff, hn]), hf]

/-- Witness for C2 (amended) at a concrete failing environment. -/
theorem c2_amended_witness :
    enrichIngredientsWithDetails envFindFail ["Aqua", "Niacinamide"] =
      .error "database connection lost" :=
  c2_amended_lookup_error envFindFail ["Aqua", "Niacinamide"]
    "database connection lost" rfl (by simp)

/-- Claim C6: with the generation credentials absent (a total
retrieval-or-generation subsystem failure), every cache-missing name
receives the minimal fallback document (risk level "Unknown", reason
"LLM fetch failed" noting the subsystem failure), every cached name
still receives its cached document, no exception escapes, and the
cache collection is left unchanged. -/
theorem c6_total_failure_fallback (env : Env) (names : List String)
    (hf : env.findFails = none)
    (hc : (jsTruthy env.apiKey && jsTruthy env.apiUrl) = false)
    (_hmiss : ∃ n ∈ names, (aiMapOfFind (findResults env.db names) n).isSome = false) :
    enrichIngredientsWithDetails env names =
      .ok (names.map (fun n =>
        (aiMapOfFind (findResults env.db names) n).getD (fallbackDoc n)), env.db) := by
  rw [enrich_ok_map env names hf]
  obtain ⟨hdb, hmap⟩ := finalState_no_creds env names hc
  rw [hdb]
  refine congrArg Except.ok (congrArg (fun l => (l, env.db)) ?_)
  refine List.map_congr_left ?_
  intro n hn
  rw [hmap n hn]
  rfl

/-- Witness for C6: one cached name and one missing name, with the API
key unset — the cached document is returned for the former, the
fallback for the latter, and the collection is untouched. -/
theorem c6_witness :
    enrichIngredientsWithDetails envNoCreds ["Aqua", "Mystery"] =
      .ok ([aquaDoc, fallbackDoc "Mystery"], [aquaDoc]) := by
  have h := c6_total_failure_fallback envNoCreds ["Aqua", "Mystery"] rfl rfl
    ⟨"Mystery", by simp, rfl⟩
  rw [h]
  rfl

/-- Claim C9 counterexample: for the duplicate input
["Niacinamide", "Niacinamide"] with an empty cache, the still-missing
list is NOT deduplicated — it keeps both occurrences, and the single
generation batch carries the name twice, so the name is resolved twice
rather than exactly once. -/
theorem c9_counterexample :
    stillMissingOf envBase ["Niacinamide", "Niacinamide"] =
      ["Niacinamide", "Niacinamide"]
    ∧ chunkList (stillMissingOf envBase ["Niacinamide", "Niacinamide"]) =
      [["Niacinamide", "Niacinamide"]] :=
  ⟨rfl, rfl⟩

/-- Claim C9 as amended: the missing list keeps every occurrence of a
missing name (one retrieval and one generation slot per occurrence, no
internal deduplication); nevertheless the output is a pointwise
function of the name, so duplicate occurrences in the input all receive
the same resolved record. -/
theorem c9_amended_duplicates (env : Env) (names : List String)
    (hf : env.findFails = none) :
    (∀ x, (stillMissingOf env names).count x =
      if (aiMapOfFind (findResults env.db names) x).isSome then 0 else names.count x)
    ∧ ∃ f db2, enrichIngredientsWithDetails env names = .ok (names.map f, db2) := by
  constructor
  · intro x
    unfold stillMissingOf
    rw [count_filter_eq]
    by_cases hS : (aiMapOfFind (findResults env.db names) x).isSome
    · simp [hS]
    · simp [hS]
  · exact ⟨_, _, enrich_ok_map env names hf⟩

/-- Witness for C9 (amended): both occurrences of the duplicate missing
name are kept in the compute path, and the output is of the pointwise
form. -/
theorem c9_amended_witness :
    (stillMissingOf envBase ["Niacinamide", "Niacinamide"]).count "Niacinamide" = 2
    ∧ ∃ f db2, enrichIngredientsWithDetails envBase ["Niacinamide", "Niacinamide"] =
        .ok (["Niacinamide", "Niacinamide"].map f, db2) := by
  have h := c9_amended_duplicates envBase ["Niacinamide", "Niacinamide"] rfl
  refine ⟨?_, h.2⟩
  rw [h.1 "Niacinamide"]
  rfl

/-- Claim C10: whenever the cache lookup itself succeeds, every input
name (empty strings included) is assigned a record in the name-keyed
map before the merge step, so the null-dropping filter removes nothing
and the returned list has exactly the input list's length, for every
behaviour of the search, generation, credential and upsert oracles. -/
theorem c10_totality (env : Env) (names : List String)
    (hf : env.findFails = none) (_hn : names ≠ []) :
    ∃ p, enrichIngredientsWithDetails env names = .ok p ∧
      p.1.length = names.length ∧
      ∀ n ∈ names, ((finalState env names).1 n).isSome := by
  refine ⟨_, enrich_ok_map env names hf, ?_, finalState_isSome env names⟩
  simp

/-- Witness for C10, including an empty-string name. -/
theorem c10_witness :
    ∃ p, enrichIngredientsWithDetails envBase ["", "Aqua"] = .ok p ∧
      p.1.length = ["", "Aqua"].length ∧
      ∀ n ∈ ["", "Aqua"], ((finalState envBase ["", "Aqua"]).1 n).isSome :=
  c10_totality envBase ["", "Aqua"] rfl (by simp)

/-- Claim C8 counterexample: the cache upsert is keyed by the
generation result's own name (`llmResult.name || llmResult.inci_name ||
ingredientName`), so when the service reports "Renamed Substance" for
"Adenosine", the record is persisted under the wrong key and a second
`enrich(["Adenosine"])` against the updated cache still finds the name
missing — a further generation call is performed. -/
theorem c8_counterexample :
    (enrichIngredientsWithDetails envRename ["Adenosine"]).toOption.map
        (fun p => stillMissingOf { envRename with db := p.2 } ["Adenosine"]) =
      some ["Adenosine"] :=
  rfl

/-- Claim C8 as amended: after a first `enrich([x])` that generated a
record whose resolved name equals x and successfully upserted it, a
second call against the updated cache backing is a full cache hit: x is
no longer in the still-missing list, so no generation call is made. -/
theorem c8_amended_cache_idempotence (env : Env) (x : String) (r : LLMResult)
    (hf : env.findFails = none)
    (hc : (jsTruthy env.apiKey && jsTruthy env.apiUrl) = true)
    (hdb : ∀ d ∈ env.db, d.name ≠ x)
    (hllm : env.llm [x] (retrieveSafetyContext env.search [x]) = .results [some r])
    (hname : (docOfLLMResult r x).name = x)
    (hup : env.upsertFails (docOfLLMResult r x) = false) :
    ∃ p, enrichIngredientsWithDetails env [x] = .ok p ∧
      stillMissingOf { env with db := p.2 } [x] = [] := by
  have hfind : findResults env.db [x] = [] := by
    refine List.filter_eq_nil_iff.mpr ?_
    intro d hd
    simp [hdb d hd]
  have hsm : stillMissingOf env [x] = [x] := by
    unfold stillMissingOf
    rw [hfind]
    rfl
  have hfs : finalState env [x] =
      (mapSet (aiMapOfFind (findResults env.db [x])) x (docOfLLMResult r x),
       dbUpsert env.db (docOfLLMResult r x)) := by
    simp only [finalState]
    rw [hsm]
    rw [if_neg (by simp)]
    rw [fetch_ok env [x] _ hc]
    dsimp only
    have hpb : ((chunkList [x]).map
        (processBatch env.llm (retrieveSafetyContext env.search [x]))).flatten = [r] := by
      show processBatch env.llm (retrieveSafetyContext env.search [x]) [x] ++ [] = [r]
      unfold processBatch
      rw [hllm]
      rfl
    rw [hpb]
    show cacheLoop env _ [(x, r)] = _
    rw [cacheLoop, cacheLoop]
    rw [hup]
    rfl
  refine ⟨_, enrich_ok_map env [x] hf, ?_⟩
  have hp2 : (finalState env [x]).2 = dbUpsert env.db (docOfLLMResult r x) := by
    rw [hfs]
  rw [hp2]
  have hin : ∃ d ∈ findResults (dbUpsert env.db (docOfLLMResult r x)) [x], d.name = x := by
    refine ⟨docOfLLMResult r x, ?_, hname⟩
    refine List.mem_filter.mpr ⟨dbUpsert_mem env.db _, ?_⟩
    simp [hname]
  have hS : (aiMapOfFind (findResults (dbUpsert env.db (docOfLLMResult r x)) [x]) x).isSome :=
    aiMapOfFind_isSome_of_mem hin
  unfold stillMissingOf
  simp only [List.filter]
  rw [hS]
  rfl

/-- Witness for C8 (amended): with a generation service that reports no
name of its own, the persisted record is keyed by the requested name
and the second lookup is a full hit. -/
theorem c8_amended_witness :
    ∃ p, enrichIngredientsWithDetails envEcho ["Adenosine"] = .ok p ∧
      stillMissingOf { envEcho with db := p.2 } ["Adenosine"] = [] :=
  c8_amended_cache_idempotence envEcho "Adenosine" anonResult rfl rfl
    (by intro d hd; simp [envEcho, envBase] at hd) rfl rfl rfl

end Enrich
